import Mathlib

/-!
# md-to-html: the HTML back end (html.h, html.c)

A shallow embedding of `html_from_md`, `flush_html` and `html_free` and the
helpers they call, followed by theorems about them.

Conventions of the embedding.

* A C string is the list of its bytes before the terminating NUL.
* A nullable `char *` is an `Option`.
* The stream a `FILE *` points at is the list of the writes made to it, each
  tagged with the expression that was handed to `fwrite` / `fprintf`; the
  bytes in the file are the concatenation of the payloads.
* Code whose behaviour C leaves undefined (a write through a NULL stream, a
  `sprintf` past the end of its array, an index past the end of an array)
  stops with a `Fault`.
* `malloc` is taken to succeed; `free` is recorded as the list of the blocks
  handed to it.
* html.c names the enumerator `HTML_TAG_NEWLINE`, which no file of the sources
  declares: it has no integer value here, and the row its lookup in `tags`
  finds is modelled from the spec (`newline_row`).
-/

namespace MdToHtml

/-- A C string: the bytes before the terminating NUL, one `Char` per byte. -/
abbrev CString := List Char

/-! ## md.h (not among the sources) -/

/-- Modelled from the spec: `UnitType` is declared in md.h, which is missing.
The six named kinds are the spec's UnitKind (Heading1, Heading2, Heading3,
BulletItem, Image, PlainLine) under the names html.c switches on; `other`
stands for any further value the C enum may carry. -/
inductive UnitType
  | UNIT_TYPE_H1
  | UNIT_TYPE_H2
  | UNIT_TYPE_H3
  | UNIT_TYPE_BULLET
  | UNIT_TYPE_IMAGE
  | UNIT_TYPE_NONE
  | other (code : Nat)
  deriving DecidableEq, Repr

/-- Modelled from the spec: `MDUnit` is declared in md.h, which is missing.
The fields are the ones html.c reads (`type`, `content`, `uri`); the `next`
pointer is the tail of the list the unit sits in. -/
structure MDUnit where
  type : UnitType
  content : Option CString
  uri : Option CString
  deriving DecidableEq, Repr

/-- Modelled from the spec: `MD` is declared in md.h, which is missing. It
carries the recorded line count and the head of the linked list of units. -/
structure MD where
  n_lines : Nat
  elements : List MDUnit
  deriving DecidableEq, Repr

/-! ## html.h -/

/-- The enum `HTMLTag`. html.h lists the first six enumerators, in this order;
`HTML_TAG_NEWLINE` is the enumerator html.c returns from `find_html_tag` for
`UNIT_TYPE_NONE`, which no file of the sources declares. -/
inductive HTMLTag
  | HTML_TAG_H1
  | HTML_TAG_H2
  | HTML_TAG_H3
  | HTML_TAG_LI
  | HTML_TAG_IMG
  | HTML_TAG_NONE
  | HTML_TAG_NEWLINE
  deriving DecidableEq, Repr

/-- The integer value of an enumerator: html.h numbers its six from 0 to 5.
`HTML_TAG_NEWLINE` is declared in no file of the sources and has no value
here. -/
def HTMLTag.toNat : HTMLTag → Option Nat
  | .HTML_TAG_H1 => some 0
  | .HTML_TAG_H2 => some 1
  | .HTML_TAG_H3 => some 2
  | .HTML_TAG_LI => some 3
  | .HTML_TAG_IMG => some 4
  | .HTML_TAG_NONE => some 5
  | .HTML_TAG_NEWLINE => none

/-- The struct `HTMLUnit`. -/
structure HTMLUnit where
  tag : HTMLTag
  content : Option CString
  uri : Option CString
  deriving DecidableEq, Repr

/-- The struct `HTML`. The field `html` holds the units stored so far in the
array `html->html`; slots past them have not been written. -/
structure HTML where
  file_name : CString
  title : CString
  n_lines : Nat
  html : List HTMLUnit
  deriving DecidableEq, Repr

/-! ## html.c: constants and the tag table -/

def DEFAULT_HTML_FILE_NAME : CString := "index.html".toList

def DEFAULT_HTML_TITLE : CString := "Document".toList

def LINEBREAK : CString := "<br>".toList

def NEWLINE : CString := "\n".toList

def TABSPACE : CString := "\t".toList

/-- The struct `html_tags`: one row of the tag table. -/
structure html_tags where
  key : HTMLTag
  start_tag : Option CString
  end_tag : Option CString
  deriving DecidableEq, Repr

/-- The static table `tags`: five rows. -/
def tags : List html_tags :=
  [ ⟨.HTML_TAG_H1, some "<h1>".toList, some "</h1>".toList⟩,
    ⟨.HTML_TAG_H2, some "<h2>".toList, some "</h2>".toList⟩,
    ⟨.HTML_TAG_H3, some "<h3>".toList, some "</h3>".toList⟩,
    ⟨.HTML_TAG_LI, some "<li>".toList, some "</li>".toList⟩,
    ⟨.HTML_TAG_NONE, none, none⟩ ]

/-- Modelled from the spec: the row the read `tags[HTML_TAG_NEWLINE]` finds.
The declaration that gives `HTML_TAG_NEWLINE` its value is missing from the
sources. The spec renders a plain line with no wrapping tag and a trailing
line break; that is the row of `tags` without start and end text. -/
def newline_row : html_tags :=
  ⟨.HTML_TAG_NONE, none, none⟩

/-! ## Faults and the output stream -/

/-- The ways the code can leave defined behaviour. -/
inductive Fault
  | null_stream
  | buffer_overflow
  | tags_out_of_bounds
  | unit_out_of_bounds
  deriving DecidableEq, Repr

/-- One call of `fwrite` or `fprintf`, named after what it was given. -/
inductive Write
  | template (text : CString)
  | newline
  | tabspace
  | ul_open
  | ul_close
  | start_tag (text : CString)
  | content (text : CString)
  | end_tag (text : CString)
  | img (text : CString)
  | linebreak
  deriving DecidableEq, Repr

/-- The bytes a write puts into the file. `LINEBREAK` is written with an
explicit count of 4. -/
def Write.bytes : Write → CString
  | .template text => text
  | .newline => NEWLINE.take 1
  | .tabspace => TABSPACE.take 1
  | .ul_open => "<ul>".toList
  | .ul_close => "</ul>".toList
  | .start_tag text => text
  | .content text => text
  | .end_tag text => text
  | .img text => text
  | .linebreak => LINEBREAK.take 4

/-- The bytes of a sequence of writes. -/
def bytes_of (ws : List Write) : CString :=
  ws.flatMap Write.bytes

/-- A `HTMLFile *`: NULL, or a stream with the writes made to it so far. -/
abbrev HTMLFile := Option (List Write)

/-- The call `fopen (name, "w+")`: NULL when the destination cannot be opened,
otherwise a stream truncated to zero length. -/
def fopen (can_open : Bool) : HTMLFile :=
  if can_open then some [] else none

/-- One `fwrite` / `fprintf` on the stream. -/
def fwrite (w : Write) (file : HTMLFile) : Except Fault HTMLFile :=
  match file with
  | none => .error .null_stream
  | some out => .ok (some (out ++ [w]))

/-- The call `fclose (file)`; yields what the file now holds. -/
def fclose (file : HTMLFile) : Except Fault (List Write) :=
  match file with
  | none => .error .null_stream
  | some out => .ok out

/-- The call `sprintf (buf, ...)` into a `char buf[size]`: the formatted text
and its NUL have to fit. -/
def sprintf (size : Nat) (text : CString) : Except Fault CString :=
  if text.length + 1 ≤ size then .ok text else .error .buffer_overflow

/-! ## html.c: functions -/

/-- The function `html_init`. -/
def html_init (n_lines : Nat) : HTML :=
  { file_name := DEFAULT_HTML_FILE_NAME
    title := DEFAULT_HTML_TITLE
    n_lines := n_lines
    html := [] }

/-- The function `find_html_tag`. -/
def find_html_tag (type : UnitType) : HTMLTag :=
  match type with
  | .UNIT_TYPE_H1 => .HTML_TAG_H1
  | .UNIT_TYPE_H2 => .HTML_TAG_H2
  | .UNIT_TYPE_H3 => .HTML_TAG_H3
  | .UNIT_TYPE_BULLET => .HTML_TAG_LI
  | .UNIT_TYPE_IMAGE => .HTML_TAG_IMG
  | .UNIT_TYPE_NONE => .HTML_TAG_NEWLINE
  | _ => .HTML_TAG_NONE

/-- The function `html_unit_init`: the tag is looked up, `content` and `uri`
are handed over as they are. -/
def html_unit_init (md_unit : MDUnit) : HTMLUnit :=
  { tag := find_html_tag md_unit.type
    content := md_unit.content
    uri := md_unit.uri }

/-- The text before `%s` in the format of `init_template`. -/
def init_format_head : CString :=
  "<!DOCTYPE html>\n".toList
    ++ "<html lang=\"en\">\n".toList
    ++ "<head>\n".toList
    ++ "\t<meta charset=\"UTF-8\">\n".toList
    ++ "\t<meta name=\"viewport\" content=\"width=device-width, initial-scale=1.0\">\n".toList
    ++ "\t<title>".toList

/-- The text after `%s` in the format of `init_template`. -/
def init_format_tail : CString :=
  "</title>\n".toList
    ++ "</head>\n".toList
    ++ "<body>\n".toList

/-- The function `init_template`: formats into `char template[200]`, then
prints the buffer. -/
def init_template (file : HTMLFile) (html : HTML) : Except Fault HTMLFile := do
  let template ← sprintf 200 (init_format_head ++ html.title ++ init_format_tail)
  fwrite (.template template) file

/-- The function `final_template`: formats into `char template[20]`, then
prints the buffer. -/
def final_template (file : HTMLFile) : Except Fault HTMLFile := do
  let template ← sprintf 20 ("</body>\n".toList ++ "</html>\n".toList)
  fwrite (.template template) file

/-- The number of `HTMLUnit *` slots in the block `html_init` allocates for the
array, `malloc (n_lines * sizeof (HTMLUnit))`: an `HTMLUnit` holds an enum and
two pointers and takes the room of three pointers (24 and 8 bytes on LP64, 12
and 4 bytes on ILP32). -/
def slots (n_lines : Nat) : Nat :=
  3 * n_lines

/-- The while loop of `html_from_md`: `html->html[i++] = html_unit`, where
`i` is the number of units stored so far. A store past the end of the
allocated block is a fault. -/
def store_units : List MDUnit → HTML → Except Fault HTML
  | [], html => .ok html
  | unit :: next, html =>
    if html.html.length < slots html.n_lines then
      store_units next { html with html := html.html ++ [html_unit_init unit] }
    else
      .error .unit_out_of_bounds

/-- The function `html_from_md`. -/
def html_from_md (md : MD) (file_name : Option CString) (title : Option CString) :
    Except Fault HTML :=
  let html := html_init md.n_lines
  let html := match file_name with
    | some name => { html with file_name := name }
    | none => html
  let html := match title with
    | some t => { html with title := t }
    | none => html
  store_units md.elements html

/-- The function `tag_is_heading`. -/
def tag_is_heading (tag : HTMLTag) : Bool :=
  tag == .HTML_TAG_H1 || tag == .HTML_TAG_H2 || tag == .HTML_TAG_H3

/-- The read `html->html[i]`. -/
def unit_at (html : HTML) (i : Nat) : Except Fault HTMLUnit :=
  match html.html[i]? with
  | some unit => .ok unit
  | none => .error .unit_out_of_bounds

/-- The read `tags[tag]`: the row at the index the tag's value gives, a fault
past the five rows; for `HTML_TAG_NEWLINE`, whose value the sources do not
give, the row `newline_row`. -/
def tags_at (tag : HTMLTag) : Except Fault html_tags :=
  match tag.toNat with
  | some i =>
    match tags[i]? with
    | some row => .ok row
    | none => .error .tags_out_of_bounds
  | none => .ok newline_row

/-- The condition of the first `if` in the loop of `flush_html`:
`unit->tag == HTML_TAG_LI && (i == 0 || html->html[i-1]->tag != HTML_TAG_LI)`,
evaluated left to right. -/
def opens_list (html : HTML) (i : Nat) (unit : HTMLUnit) : Except Fault Bool :=
  if unit.tag = .HTML_TAG_LI then
    if i = 0 then .ok true
    else do
      let prev ← unit_at html (i - 1)
      pure (prev.tag != .HTML_TAG_LI)
  else .ok false

/-- The condition of the last `if` in the loop of `flush_html`:
`unit->tag == HTML_TAG_LI && (i == html->n_lines - 1 || html->html[i+1]->tag != HTML_TAG_LI)`,
evaluated left to right. Inside the loop `n_lines` is at least 1. -/
def closes_list (html : HTML) (i : Nat) (unit : HTMLUnit) : Except Fault Bool :=
  if unit.tag = .HTML_TAG_LI then
    if i = html.n_lines - 1 then .ok true
    else do
      let next ← unit_at html (i + 1)
      pure (next.tag != .HTML_TAG_LI)
  else .ok false

/-- An `fwrite` guarded by a non-NULL test of the string it writes. -/
def fwrite_opt (mk : CString → Write) (text : Option CString) (file : HTMLFile) :
    Except Fault HTMLFile :=
  match text with
  | some s => fwrite (mk s) file
  | none => .ok file

/-- The body of the `for` loop of `flush_html`, for index `i`. -/
def flush_unit (html : HTML) (i : Nat) (file : HTMLFile) : Except Fault HTMLFile := do
  let unit ← unit_at html i
  let file ← fwrite .newline file
  let file ← (do
    if (← opens_list html i unit) then
      let file ← fwrite .tabspace file
      let file ← fwrite .ul_open file
      fwrite .newline file
    else pure file)
  let file ← fwrite .tabspace file
  let file ← (if unit.tag = .HTML_TAG_LI then fwrite .tabspace file else pure file)
  let row ← tags_at unit.tag
  let file ← fwrite_opt .start_tag row.start_tag file
  let file ← fwrite_opt .content unit.content file
  let file ← fwrite_opt .end_tag row.end_tag file
  let file ← (match unit.uri with
    | some uri =>
      if unit.tag = .HTML_TAG_IMG then do
        let img ← sprintf 200 ("<img src=\"".toList ++ uri ++ "\">".toList)
        fwrite (.img img) file
      else pure file
    | none => pure file)
  let file ← (if tag_is_heading unit.tag then pure file else fwrite .linebreak file)
  if (← closes_list html i unit) then
    let file ← fwrite .newline file
    let file ← fwrite .tabspace file
    let file ← fwrite .ul_close file
    fwrite .newline file
  else pure file

/-- The `for` loop of `flush_html`, `for (i = ...; i < html->n_lines; i++)`,
with `k = n_lines - i` iterations still to run. -/
def flush_units (html : HTML) : Nat → Nat → HTMLFile → Except Fault HTMLFile
  | 0, _, file => .ok file
  | k + 1, i, file => do
    let file ← flush_unit html i file
    flush_units html k (i + 1) file

/-- The function `flush_html`. `can_open` tells whether `fopen` succeeds; the
result is what the destination holds after `fclose`. -/
def flush_html (can_open : Bool) (html : HTML) : Except Fault (List Write) := do
  let file := fopen can_open
  let file ← init_template file html
  let file ← flush_units html html.n_lines 0 file
  let file ← final_template file
  fclose file

/-! ## Closed forms of the loop -/

/-- Whether a unit carries the tag `HTML_TAG_LI`. -/
def is_li (u : HTMLUnit) : Bool :=
  u.tag == .HTML_TAG_LI

/-- Whether the unit before index `i` exists and is a list item. -/
def prev_li (us : List HTMLUnit) (i : Nat) : Bool :=
  i != 0 && (us[i - 1]?).any is_li

/-- Whether the unit after index `i` exists and is a list item. -/
def next_li (us : List HTMLUnit) (i : Nat) : Bool :=
  (us[i + 1]?).any is_li

/-- The start text of the row the read `tags[tag]` finds, if it finds one. -/
def start_of (tag : HTMLTag) : Option CString :=
  match tags_at tag with
  | .ok row => row.start_tag
  | .error _ => none

/-- The end text of the row the read `tags[tag]` finds, if it finds one. -/
def end_of (tag : HTMLTag) : Option CString :=
  match tags_at tag with
  | .ok row => row.end_tag
  | .error _ => none

/-- The writes of one pass through the loop body, given whether the unit
before and the unit after are list items. -/
def unit_writes (before after : Bool) (u : HTMLUnit) : List Write :=
  [.newline]
    ++ (if is_li u && !before then [.tabspace, .ul_open, .newline] else [])
    ++ [.tabspace]
    ++ (if is_li u then [.tabspace] else [])
    ++ (start_of u.tag).toList.map .start_tag
    ++ u.content.toList.map .content
    ++ (end_of u.tag).toList.map .end_tag
    ++ (if u.tag = .HTML_TAG_IMG then
          u.uri.toList.map (fun uri => .img ("<img src=\"".toList ++ uri ++ "\">".toList))
        else [])
    ++ (if tag_is_heading u.tag then [] else [.linebreak])
    ++ (if is_li u && !after then [.newline, .tabspace, .ul_close, .newline] else [])

/-- A unit the loop body writes without a fault: the read `tags[unit->tag]`
finds a row, and if the unit is an image with a uri, the `<img>` text fits
`char img[200]`. -/
def unit_ok (u : HTMLUnit) : Bool :=
  (match tags_at u.tag with
    | .ok _ => true
    | .error _ => false)
    && (match u.uri with
        | some uri => u.tag != .HTML_TAG_IMG || decide (uri.length ≤ 187)
        | none => true)

/-- The writes of the pass for index `j` over the units `us`. -/
def writes_at (us : List HTMLUnit) (j : Nat) : List Write :=
  match us[j]? with
  | some u => unit_writes (prev_li us j) (next_li us j) u
  | none => []

/-- The writes of the loop over a run of units, given whether the unit before
the run is a list item. -/
def body_writes : Bool → List HTMLUnit → List Write
  | _, [] => []
  | before, u :: rest => unit_writes before ((rest.head?).any is_li) u ++ body_writes (is_li u) rest

/-- The text `init_template` formats for a title. -/
def head_text (title : CString) : CString :=
  init_format_head ++ title ++ init_format_tail

/-- The text `final_template` formats. -/
def tail_text : CString :=
  "</body>\n".toList ++ "</html>\n".toList

/-! ## The claims in their own words -/

/-- Spec side, C1: the fixed head template with the title inside `<title>`. -/
def spec_head (t : CString) : CString :=
  "<!DOCTYPE html>\n<html lang=\"en\">\n<head>\n\t<meta charset=\"UTF-8\">\n\t<meta name=\"viewport\" content=\"width=device-width, initial-scale=1.0\">\n\t<title>".toList
    ++ t ++ "</title>\n</head>\n<body>\n".toList

/-- Spec side, C1: the fixed closing template. -/
def spec_tail : CString :=
  "</body>\n</html>\n".toList

/-- The fault a pass of the loop body over a unit runs into, if any: the read
of `tags[unit->tag]` past the table, or else the `sprintf` of the `<img>` text
past `char img[200]`. -/
def unit_fault (u : HTMLUnit) : Option Fault :=
  match tags_at u.tag with
  | .error f => some f
  | .ok _ =>
    match u.uri with
    | some uri =>
      if u.tag = .HTML_TAG_IMG ∧ 187 < uri.length then some .buffer_overflow else none
    | none => none

/-- The outcome of the loop over a run of units, given whether the unit before
the run is a list item: the first fault, or the writes. -/
def body_result : Bool → List HTMLUnit → Except Fault (List Write)
  | _, [] => .ok []
  | before, u :: rest =>
    match unit_fault u with
    | some f => .error f
    | none =>
      match body_result (is_li u) rest with
      | .error f => .error f
      | .ok ws => .ok (unit_writes before ((rest.head?).any is_li) u ++ ws)

/-- The document that holds exactly the units `us`, under the default file
name and title. -/
def document_of (us : List HTMLUnit) : HTML :=
  { file_name := DEFAULT_HTML_FILE_NAME
    title := DEFAULT_HTML_TITLE
    n_lines := us.length
    html := us }

/-- The writes of the `for` loop of `flush_html` over the units `us`, on a
stream that is open and empty. -/
def body_of (us : List HTMLUnit) : Except Fault (List Write) := do
  let file ← flush_units (document_of us) us.length 0 (some [])
  fclose file

/-- The bytes the `for` loop of `flush_html` writes for the units `us`. -/
def body_bytes (us : List HTMLUnit) : Except Fault CString :=
  (body_of us).map bytes_of

/-! ## html.c: `html_free` -/

/-- A heap block a document refers to: the content string or the uri string of
the unit in slot `i`, the unit in slot `i`, the array of slots, the document. -/
inductive Block
  | content (i : Nat)
  | uri (i : Nat)
  | unit (i : Nat)
  | units
  | document
  deriving DecidableEq, Repr

/-- The `for` loop of `html_free`, with `k = n_lines - i` iterations still to
run; `freed` lists the blocks handed to `free` so far. -/
def free_units (html : HTML) : Nat → Nat → List Block → Except Fault (List Block)
  | 0, _, freed => .ok freed
  | k + 1, i, freed => do
    let unit ← unit_at html i
    let freed := (match unit.content with
      | some _ => freed ++ [.content i]
      | none => freed)
    free_units html k (i + 1) (freed ++ [.unit i])

/-- The function `html_free`: the blocks it hands to `free`, in order. -/
def html_free (html : HTML) : Except Fault (List Block) := do
  let freed ← free_units html html.n_lines 0 []
  pure (freed ++ [.units, .document])

/-- The blocks the loop of `html_free` frees for the units from slot `i` on. -/
def unit_blocks : Nat → List HTMLUnit → List Block
  | _, [] => []
  | i, u :: rest =>
    (match u.content with
      | some _ => [.content i]
      | none => [])
      ++ [.unit i] ++ unit_blocks (i + 1) rest

/-- Spec side, C15: the blocks a document owns: for every unit its content and
its uri, when present, and the unit; the unit sequence; the document. -/
def owned_blocks (html : HTML) : List Block :=
  (List.range html.html.length).flatMap (fun i =>
    match html.html[i]? with
    | some u =>
      (if u.content.isSome then [Block.content i] else [])
        ++ (if u.uri.isSome then [Block.uri i] else []) ++ [Block.unit i]
    | none => [])
    ++ [.units, .document]

/-! ## The serializer of the spec (section 4.4) -/

/-- One write read by the two-state machine "outside a list / inside a list":
an opener is legal only outside, a closer only inside, any other write keeps
the state. -/
def wrap_step (inside : Bool) : Write → Option Bool
  | .ul_open => if inside then none else some true
  | .ul_close => if inside then some false else none
  | _ => some inside

/-- A sequence of writes read by the two-state machine: the state it ends in,
if every wrapper in the sequence is legal. -/
def wrap_run : Bool → List Write → Option Bool
  | inside, [] => some inside
  | inside, w :: ws => (wrap_step inside w).bind (fun s => wrap_run s ws)

@[simp] theorem fwrite_some (w : Write) (out : List Write) :
    fwrite w (some out) = .ok (some (out ++ [w])) := rfl

theorem unit_at_eq (html : HTML) (i : Nat) (u : HTMLUnit) (hu : html.html[i]? = some u) :
    unit_at html i = .ok u := by
  simp [unit_at, hu]

theorem opens_list_eq (html : HTML) (i : Nat) (u : HTMLUnit)
    (hu : html.html[i]? = some u) :
    opens_list html i u = .ok (is_li u && !prev_li html.html i) := by
  have hi : i < html.html.length := (List.getElem?_eq_some.mp hu).1
  unfold opens_list is_li prev_li
  by_cases hli : u.tag = .HTML_TAG_LI
  · by_cases h0 : i = 0
    · simp [hli, h0]
    · have hp : i - 1 < html.html.length := by omega
      simp [hli, h0, unit_at, List.getElem?_eq_getElem hp, bind, Except.bind, pure, Except.pure,
        is_li, bne]
  · simp [hli]

theorem closes_list_eq (html : HTML) (i : Nat) (u : HTMLUnit)
    (hu : html.html[i]? = some u) (hn : html.n_lines = html.html.length) :
    closes_list html i u = .ok (is_li u && !next_li html.html i) := by
  have hi : i < html.html.length := (List.getElem?_eq_some.mp hu).1
  unfold closes_list is_li next_li
  by_cases hli : u.tag = .HTML_TAG_LI
  · by_cases h0 : i = html.n_lines - 1
    · have hp : html.html.length ≤ i + 1 := by omega
      simp [hli, h0, List.getElem?_eq_none hp]
      simp [← h0, List.getElem?_eq_none hp]
    · have hp : i + 1 < html.html.length := by omega
      simp [hli, h0, unit_at, List.getElem?_eq_getElem hp, bind, Except.bind, pure, Except.pure,
        is_li, bne]
  · simp [hli]

theorem flush_unit_eq (html : HTML) (i : Nat) (u : HTMLUnit) (out : List Write)
    (hu : html.html[i]? = some u) (hn : html.n_lines = html.html.length)
    (hok : unit_ok u = true) :
    flush_unit html i (some out)
      = .ok (some (out ++ unit_writes (prev_li html.html i) (next_li html.html i) u)) := by
  unfold flush_unit
  simp only [unit_at_eq html i u hu, bind, Except.bind, fwrite_some]
  rw [opens_list_eq html i u hu, closes_list_eq html i u hu hn]
  generalize prev_li html.html i = p
  generalize next_li html.html i = q
  rcases u with ⟨tag, content, uri⟩
  cases tag <;> cases content <;> cases uri <;> cases p <;> cases q <;>
    simp_all [unit_ok, unit_writes, is_li, tags_at, tags_at, newline_row, tags, HTMLTag.toNat, start_of, end_of,
      fwrite_opt, tag_is_heading, sprintf, bind, Except.bind, pure, Except.pure]

theorem getElem?_append_add {α : Type} (xs ys : List α) (j : Nat) :
    (xs ++ ys)[xs.length + j]? = ys[j]? := by
  rw [List.getElem?_append_right (Nat.le_add_right _ _)]
  simp

theorem writes_at_append (done todo : List HTMLUnit) (u : HTMLUnit) :
    writes_at (done ++ u :: todo) done.length
      = unit_writes ((done.getLast?).any is_li) ((todo.head?).any is_li) u := by
  have h1 : (done ++ u :: todo)[done.length]? = some u := by
    have := getElem?_append_add done (u :: todo) 0
    simpa using this
  have h2 : prev_li (done ++ u :: todo) done.length = (done.getLast?).any is_li := by
    unfold prev_li
    rcases List.eq_nil_or_concat done with h | ⟨d, x, h⟩
    · subst h; simp
    · subst h
      have := getElem?_append_add d (x :: u :: todo) 0
      simp only [Nat.add_zero, List.getElem?_cons_zero] at this
      simp [this]
  have h3 : next_li (done ++ u :: todo) done.length = (todo.head?).any is_li := by
    unfold next_li
    have := getElem?_append_add done (u :: todo) 1
    rw [this]
    cases todo <;> simp
  rw [writes_at, h1, h2, h3]

theorem range_writes_eq (todo : List HTMLUnit) :
    ∀ done : List HTMLUnit,
      (List.range' done.length todo.length).flatMap (writes_at (done ++ todo))
        = body_writes ((done.getLast?).any is_li) todo := by
  induction todo with
  | nil => intro done; simp [body_writes]
  | cons u rest ih =>
    intro done
    have h := ih (done ++ [u])
    simp only [List.append_assoc, List.singleton_append, List.length_append, List.length_singleton,
      List.getLast?_append, List.getLast?_singleton] at h
    simp only [List.length_cons, List.range'_succ, List.flatMap_cons, body_writes,
      writes_at_append]
    rw [h]
    simp

theorem spec_head_eq (t : CString) : spec_head t = head_text t := by
  simp [spec_head, head_text, init_format_head, init_format_tail]

theorem bytes_of_append (a b : List Write) : bytes_of (a ++ b) = bytes_of a ++ bytes_of b := by
  simp [bytes_of]

set_option maxRecDepth 4000 in
theorem init_format_length : init_format_head.length + init_format_tail.length = 168 := by
  decide

theorem unit_ok_iff (u : HTMLUnit) :
    unit_ok u = true ↔
      u.tag ≠ .HTML_TAG_NONE
        ∧ ∀ uri, u.uri = some uri → u.tag = .HTML_TAG_IMG → uri.length ≤ 187 := by
  rcases u with ⟨tag, content, uri⟩
  cases tag <;> cases uri <;> simp [unit_ok, tags_at, newline_row, tags, HTMLTag.toNat]

theorem store_units_eq (units : List MDUnit) :
    ∀ html : HTML, html.html.length + units.length ≤ slots html.n_lines →
      store_units units html
        = .ok { html with html := html.html ++ units.map html_unit_init } := by
  induction units with
  | nil => intro html _; simp [store_units]
  | cons m rest ih =>
    intro html h
    have hlt : html.html.length < slots html.n_lines := by
      simp only [List.length_cons] at h
      omega
    have hrest :
        ({ html with html := html.html ++ [html_unit_init m] } : HTML).html.length + rest.length
          ≤ slots ({ html with html := html.html ++ [html_unit_init m] } : HTML).n_lines := by
      simp only [List.length_append, List.length_singleton, List.length_cons,
        List.length_nil] at h ⊢
      omega
    simp only [store_units, hlt, if_true]
    rw [ih _ hrest]
    simp

theorem html_from_md_eq (md : MD) (file_name title : Option CString)
    (hn : md.n_lines = md.elements.length) :
    html_from_md md file_name title
      = .ok { file_name := file_name.getD DEFAULT_HTML_FILE_NAME
              title := title.getD DEFAULT_HTML_TITLE
              n_lines := md.n_lines
              html := md.elements.map html_unit_init } := by
  unfold html_from_md
  rw [store_units_eq]
  · cases file_name <;> cases title <;> simp [html_init]
  · cases file_name <;> cases title <;> simp [html_init, hn, slots] <;> omega

theorem flush_image_eq (html : HTML) (i : Nat) (content : Option CString) (s : CString)
    (out : List Write)
    (hu : html.html[i]? = some ⟨.HTML_TAG_IMG, content, some s⟩) (hs : s.length ≤ 187) :
    flush_unit html i (some out)
      = .ok (some (out ++ ([Write.newline, Write.tabspace] ++ content.toList.map Write.content
          ++ [Write.img ("<img src=\"".toList ++ s ++ "\">".toList), Write.linebreak]))) := by
  unfold flush_unit
  simp only [unit_at_eq html i _ hu, bind, Except.bind, fwrite_some]
  have hfit : ("<img src=\"".toList ++ s ++ "\">".toList).length + 1 ≤ 200 := by
    simp
    omega
  cases content <;>
    simp [opens_list, closes_list, tags_at, tags_at, newline_row, tags, HTMLTag.toNat, fwrite_opt, tag_is_heading,
      sprintf, hfit, hs, bind, Except.bind, pure, Except.pure]

theorem unit_writes_after_irrelevant (b a c : Bool) (u : HTMLUnit) (h : is_li u = false) :
    unit_writes b a u = unit_writes b c u := by
  simp [unit_writes, h]

theorem unit_writes_before_irrelevant (b c a : Bool) (u : HTMLUnit) (h : is_li u = false) :
    unit_writes b a u = unit_writes c a u := by
  simp [unit_writes, h]

theorem body_writes_cons (b : Bool) (u : HTMLUnit) (rest : List HTMLUnit) :
    body_writes b (u :: rest)
      = unit_writes b ((rest.head?).any is_li) u ++ body_writes (is_li u) rest := rfl

theorem unit_fault_none_iff (u : HTMLUnit) : unit_fault u = none ↔ unit_ok u = true := by
  rcases u with ⟨tag, content, uri⟩
  cases tag <;> cases uri <;> simp [unit_fault, unit_ok, tags_at, newline_row, tags, HTMLTag.toNat]

theorem flush_unit_fault (html : HTML) (i : Nat) (u : HTMLUnit) (out : List Write) (f : Fault)
    (hu : html.html[i]? = some u) (hn : html.n_lines = html.html.length)
    (hf : unit_fault u = some f) :
    flush_unit html i (some out) = .error f := by
  unfold flush_unit
  simp only [unit_at_eq html i u hu, bind, Except.bind, fwrite_some]
  rw [opens_list_eq html i u hu, closes_list_eq html i u hu hn]
  generalize prev_li html.html i = p
  generalize next_li html.html i = q
  rcases u with ⟨tag, content, uri⟩
  cases tag <;> cases content <;> cases uri <;> cases p <;> cases q <;>
    simp_all [unit_fault, is_li, tags_at, tags_at, newline_row, tags, HTMLTag.toNat, fwrite_opt, tag_is_heading,
      sprintf, bind, Except.bind, pure, Except.pure] <;>
    simp [Nat.not_le.mpr hf.1]

theorem flush_units_result (todo : List HTMLUnit) :
    ∀ (html : HTML) (done : List HTMLUnit) (out : List Write),
      html.n_lines = html.html.length → html.html = done ++ todo →
      flush_units html todo.length done.length (some out)
        = (match body_result ((done.getLast?).any is_li) todo with
           | .error f => .error f
           | .ok ws => .ok (some (out ++ ws))) := by
  induction todo with
  | nil => intro html done out _ _; simp [flush_units, body_result]
  | cons u rest ih =>
    intro html done out hn hsplit
    have hu : html.html[done.length]? = some u := by
      rw [hsplit]
      have := getElem?_append_add done (u :: rest) 0
      simpa using this
    have hw := writes_at_append done rest u
    rw [← hsplit, writes_at, hu] at hw
    simp only [] at hw
    simp only [List.length_cons, flush_units, bind, Except.bind, body_result]
    cases hf : unit_fault u with
    | some f =>
      rw [flush_unit_fault html done.length u out f hu hn hf]
    | none =>
      rw [flush_unit_eq html done.length u out hu hn ((unit_fault_none_iff u).mp hf), hw]
      have := ih html (done ++ [u]) (out ++ unit_writes ((done.getLast?).any is_li)
        ((rest.head?).any is_li) u) hn (by simp [hsplit])
      simp only [List.length_append, List.length_singleton, List.getLast?_append,
        List.getLast?_singleton] at this
      simp only []
      rw [this]
      have hs : ((some u).or done.getLast?).any is_li = is_li u := rfl
      rw [hs]
      cases h : body_result (is_li u) rest <;> simp

theorem store_units_keeps (units : List MDUnit) :
    ∀ html result : HTML, store_units units html = .ok result →
      result.file_name = html.file_name ∧ result.title = html.title
        ∧ result.n_lines = html.n_lines := by
  induction units with
  | nil =>
    intro html result h
    simp only [store_units, Except.ok.injEq] at h
    subst h
    exact ⟨rfl, rfl, rfl⟩
  | cons m rest ih =>
    intro html result h
    by_cases hlt : html.html.length < slots html.n_lines
    · simp only [store_units, hlt, if_true] at h
      have := ih _ result h
      simpa using this
    · simp [store_units, hlt] at h

theorem html_from_md_le (md : MD) (file_name title : Option CString)
    (hn : md.elements.length ≤ md.n_lines) :
    html_from_md md file_name title
      = .ok { file_name := file_name.getD DEFAULT_HTML_FILE_NAME
              title := title.getD DEFAULT_HTML_TITLE
              n_lines := md.n_lines
              html := md.elements.map html_unit_init } := by
  unfold html_from_md
  rw [store_units_eq]
  · cases file_name <;> cases title <;> simp [html_init]
  · cases file_name <;> cases title <;> simp [html_init, slots] <;> omega

theorem html_from_md_fields (md : MD) (file_name title : Option CString) (html : HTML)
    (h : html_from_md md file_name title = .ok html) :
    html.file_name = file_name.getD DEFAULT_HTML_FILE_NAME
      ∧ html.title = title.getD DEFAULT_HTML_TITLE := by
  unfold html_from_md at h
  have := store_units_keeps _ _ _ h
  cases file_name <;> cases title <;> simp [html_init] at this ⊢ <;> exact ⟨this.1, this.2.1⟩

theorem flush_html_result (html : HTML) (hn : html.n_lines = html.html.length)
    (ht : html.title.length ≤ 31) :
    flush_html true html
      = (match body_result false html.html with
         | .error f => .error f
         | .ok ws => .ok (.template (head_text html.title) :: (ws ++ [.template tail_text]))) := by
  have hfit : (init_format_head ++ html.title ++ init_format_tail).length + 1 ≤ 200 := by
    have := init_format_length
    simp only [List.length_append]
    omega
  have hloop := flush_units_result html.html html [] [.template (head_text html.title)] hn
    (by simp)
  simp only [List.length_nil, List.getLast?_nil] at hloop
  simp only [flush_html, fopen, init_template, sprintf, hfit, if_true, bind, Except.bind,
    fwrite_some, List.nil_append, final_template, fclose]
  simp only [head_text, ← hn] at hloop
  rw [hloop]
  have hnone : (none : Option HTMLUnit).any is_li = false := rfl
  rw [hnone]
  cases body_result false html.html <;> simp [tail_text, head_text]

theorem sprintf_fits (size : Nat) (text : CString) (h : text.length + 1 ≤ size) :
    sprintf size text = .ok text :=
  if_pos h

theorem sprintf_overflows (size : Nat) (text : CString) (h : ¬ text.length + 1 ≤ size) :
    sprintf size text = .error .buffer_overflow :=
  if_neg h

theorem head_fits_iff (title : CString) :
    (init_format_head ++ title ++ init_format_tail).length + 1 ≤ 200 ↔ title.length ≤ 31 := by
  have := init_format_length
  simp only [List.length_append]
  omega

theorem init_template_fits (html : HTML) (out : List Write) (ht : html.title.length ≤ 31) :
    init_template (some out) html = .ok (some (out ++ [.template (head_text html.title)])) := by
  simp only [init_template, sprintf_fits _ _ ((head_fits_iff html.title).mpr ht), bind,
    Except.bind, fwrite_some, head_text]

theorem init_template_overflows (html : HTML) (file : HTMLFile) (ht : 32 ≤ html.title.length) :
    init_template file html = .error .buffer_overflow := by
  have hno : ¬ (init_format_head ++ html.title ++ init_format_tail).length + 1 ≤ 200 := by
    intro h
    have := (head_fits_iff html.title).mp h
    omega
  simp only [init_template, sprintf_overflows _ _ hno, bind, Except.bind]

theorem init_template_null_fits (html : HTML) (ht : html.title.length ≤ 31) :
    init_template none html = .error .null_stream := by
  simp only [init_template, sprintf_fits _ _ ((head_fits_iff html.title).mpr ht), bind,
    Except.bind, fwrite]

theorem init_template_null (html : HTML) :
    ∃ f : Fault, init_template none html = .error f := by
  by_cases h : html.title.length ≤ 31
  · exact ⟨_, init_template_null_fits html h⟩
  · exact ⟨_, init_template_overflows html none (by omega)⟩

theorem flush_html_closed (html : HTML) :
    ¬ ∃ ws : List Write, flush_html false html = .ok ws := by
  rintro ⟨ws, h⟩
  obtain ⟨f, hf⟩ := init_template_null html
  have hopen : fopen false = none := rfl
  simp [flush_html, hopen, hf, bind, Except.bind] at h

theorem unit_blocks_index (us : List HTMLUnit) :
    ∀ (i : Nat) (b : Block), b ∈ unit_blocks i us →
      ∃ j u, us[j]? = some u
        ∧ (b = .unit (i + j) ∨ (b = .content (i + j) ∧ u.content.isSome = true)) := by
  induction us with
  | nil => intro i b hb; simp [unit_blocks] at hb
  | cons u rest ih =>
    intro i b hb
    simp only [unit_blocks, List.mem_append, List.mem_singleton] at hb
    rcases hb with (hb | hb) | hb
    · refine ⟨0, u, by simp, Or.inr ?_⟩
      cases hc : u.content with
      | none => simp [hc] at hb
      | some c => simp [hc] at hb; simp [hb]
    · exact ⟨0, u, by simp, Or.inl (by simp [hb])⟩
    · obtain ⟨j, v, hj, hv⟩ := ih (i + 1) b hb
      refine ⟨j + 1, v, by simpa using hj, ?_⟩
      have e : i + (j + 1) = i + 1 + j := by omega
      rw [e]
      exact hv

theorem unit_blocks_mem (us : List HTMLUnit) :
    ∀ (i j : Nat) (u : HTMLUnit), us[j]? = some u →
      Block.unit (i + j) ∈ unit_blocks i us
        ∧ (u.content.isSome = true → Block.content (i + j) ∈ unit_blocks i us) := by
  induction us with
  | nil => intro i j u h; simp at h
  | cons v rest ih =>
    intro i j u h
    cases j with
    | zero =>
      simp only [List.getElem?_cons_zero, Option.some.injEq] at h
      subst h
      refine ⟨by simp [unit_blocks], ?_⟩
      intro hc
      cases hv : v.content with
      | none => simp [hv] at hc
      | some c => simp [unit_blocks, hv]
    | succ j =>
      have := ih (i + 1) j u (by simpa using h)
      have e : i + (j + 1) = i + 1 + j := by omega
      rw [e]
      exact ⟨by simp [unit_blocks, this.1], fun hc => by simp [unit_blocks, this.2 hc]⟩

theorem unit_blocks_nodup (us : List HTMLUnit) : ∀ i : Nat, (unit_blocks i us).Nodup := by
  induction us with
  | nil => intro i; simp [unit_blocks]
  | cons u rest ih =>
    intro i
    have hfar : ∀ b ∈ unit_blocks (i + 1) rest, b ≠ .unit i ∧ b ≠ .content i := by
      intro b hb
      obtain ⟨j, v, _, hv⟩ := unit_blocks_index rest (i + 1) b hb
      rcases hv with hv | ⟨hv, _⟩ <;> subst hv <;> constructor <;> simp <;> omega
    have h1 : Block.unit i ∉ unit_blocks (i + 1) rest := fun hm => (hfar _ hm).1 rfl
    have h2 : Block.content i ∉ unit_blocks (i + 1) rest := fun hm => (hfar _ hm).2 rfl
    cases hc : u.content with
    | none => simp [unit_blocks, hc, h1, ih (i + 1)]
    | some c => simp [unit_blocks, hc, h1, h2, ih (i + 1)]

theorem free_units_eq (todo : List HTMLUnit) :
    ∀ (html : HTML) (done : List HTMLUnit) (freed : List Block),
      html.html = done ++ todo →
      free_units html todo.length done.length freed
        = .ok (freed ++ unit_blocks done.length todo) := by
  induction todo with
  | nil => intro html done freed _; simp [free_units, unit_blocks]
  | cons u rest ih =>
    intro html done freed hsplit
    have hu : html.html[done.length]? = some u := by
      rw [hsplit]
      have := getElem?_append_add done (u :: rest) 0
      simpa using this
    have := ih html (done ++ [u])
      ((match u.content with
        | some _ => freed ++ [.content done.length]
        | none => freed) ++ [.unit done.length]) (by simp [hsplit])
    simp only [List.length_append, List.length_singleton] at this
    simp only [List.length_cons, free_units, unit_at_eq html _ u hu, bind, Except.bind, this,
      unit_blocks]
    cases u.content <;> simp

theorem html_free_eq (html : HTML) (hn : html.n_lines = html.html.length) :
    html_free html = .ok (unit_blocks 0 html.html ++ [.units, .document]) := by
  have := free_units_eq html.html html [] [] (by simp)
  simp only [List.length_nil, List.nil_append] at this
  simp only [html_free, hn, this, bind, Except.bind, pure, Except.pure]

theorem body_result_nil (b : Bool) : body_result b [] = .ok [] := rfl

theorem body_result_cons (b : Bool) (u : HTMLUnit) (rest : List HTMLUnit) :
    body_result b (u :: rest)
      = (match unit_fault u with
         | some f => .error f
         | none =>
           match body_result (is_li u) rest with
           | .error f => .error f
           | .ok ws => .ok (unit_writes b ((rest.head?).any is_li) u ++ ws)) := rfl

theorem body_result_before_irrelevant (b c : Bool) (us : List HTMLUnit)
    (h : (us.head?).any is_li = false) : body_result b us = body_result c us := by
  cases us with
  | nil => rfl
  | cons u rest =>
    have hu : is_li u = false := by simpa using h
    rw [body_result_cons, body_result_cons, unit_writes_before_irrelevant b c _ u hu]

theorem body_result_append_left (xs : List HTMLUnit) :
    ∀ (b : Bool) (ys : List HTMLUnit), (xs.getLast?).any is_li = false →
      body_result b (xs ++ ys)
        = (body_result b xs).bind (fun a =>
            (body_result (xs.isEmpty && b) ys).map (fun c => a ++ c)) := by
  induction xs with
  | nil =>
    intro b ys _
    cases h : body_result b ys <;>
      simp [body_result_nil, h, Except.bind, Except.map]
  | cons u rest ih =>
    intro b ys h
    cases rest with
    | nil =>
      have hu : is_li u = false := by simpa using h
      rw [List.cons_append, List.nil_append, body_result_cons, body_result_cons,
        body_result_nil, hu,
        unit_writes_after_irrelevant b _ (([] : List HTMLUnit).head?.any is_li) u hu]
      simp only [List.isEmpty_cons, Bool.false_and]
      cases h1 : unit_fault u <;> cases h2 : body_result false ys <;>
        simp [Except.bind, Except.map]
    | cons v rest2 =>
      have hrest : ((v :: rest2).getLast?).any is_li = false := by
        simpa [List.getLast?_cons_cons] using h
      have := ih (is_li u) ys hrest
      rw [List.cons_append, body_result_cons, this]
      simp only [List.isEmpty_cons, Bool.false_and]
      rw [body_result_cons b u (v :: rest2)]
      cases h1 : unit_fault u <;> cases h2 : body_result (is_li u) (v :: rest2) <;>
        cases h3 : body_result false ys <;> simp [Except.bind, Except.map]

theorem body_result_append_right (xs : List HTMLUnit) :
    ∀ (b : Bool) (ys : List HTMLUnit), (ys.head?).any is_li = false →
      body_result b (xs ++ ys)
        = (body_result b xs).bind (fun a => (body_result false ys).map (fun c => a ++ c)) := by
  induction xs with
  | nil =>
    intro b ys h
    rw [List.nil_append, body_result_before_irrelevant b false ys h]
    cases body_result false ys <;> simp [body_result_nil, Except.bind, Except.map]
  | cons u rest ih =>
    intro b ys h
    have hhead : ((rest ++ ys).head?).any is_li = (rest.head?).any is_li := by
      cases rest with
      | nil => simpa using h
      | cons v rest2 => rfl
    rw [List.cons_append, body_result_cons, ih (is_li u) ys h, hhead, body_result_cons b u rest]
    cases h1 : unit_fault u <;> cases h2 : body_result (is_li u) rest <;>
      cases h3 : body_result false ys <;> simp [Except.bind, Except.map]

theorem body_of_eq (us : List HTMLUnit) : body_of us = body_result false us := by
  have := flush_units_result us (document_of us) [] [] rfl rfl
  simp only [List.length_nil, List.getLast?_nil] at this
  have hnone : (none : Option HTMLUnit).any is_li = false := rfl
  rw [hnone] at this
  simp only [body_of, this, bind, Except.bind]
  cases body_result false us <;> simp [fclose]

theorem body_bytes_eq (us : List HTMLUnit) :
    body_bytes us = (body_result false us).map bytes_of := by
  rw [body_bytes, body_of_eq]

theorem body_bytes_append (xs ys : List HTMLUnit)
    (h : (xs.getLast?).any is_li = false ∨ (ys.head?).any is_li = false) :
    body_bytes (xs ++ ys)
      = (body_bytes xs).bind (fun a => (body_bytes ys).map (fun c => a ++ c)) := by
  have hres : body_result false (xs ++ ys)
      = (body_result false xs).bind (fun a =>
          (body_result false ys).map (fun c => a ++ c)) := by
    rcases h with h | h
    · have := body_result_append_left xs false ys h
      simpa using this
    · exact body_result_append_right xs false ys h
  rw [body_bytes_eq, body_bytes_eq, body_bytes_eq, hres]
  cases body_result false xs <;> cases body_result false ys <;>
    simp [Except.bind, Except.map, bytes_of_append]

theorem wrap_run_template (s : Bool) (text : CString) (ws : List Write) :
    wrap_run s (Write.template text :: ws) = wrap_run s ws := rfl

theorem body_result_writes (us : List HTMLUnit) :
    ∀ (b : Bool) (ws : List Write), body_result b us = .ok ws → ws = body_writes b us := by
  induction us with
  | nil =>
    intro b ws h
    simp only [body_result_nil, Except.ok.injEq] at h
    exact h.symm
  | cons u rest ih =>
    intro b ws h
    rw [body_result_cons] at h
    cases hf : unit_fault u with
    | some f => simp [hf] at h
    | none =>
      cases hr : body_result (is_li u) rest with
      | error f => simp [hf, hr] at h
      | ok rs =>
        simp only [hf, hr, Except.ok.injEq] at h
        rw [body_writes_cons, ← ih (is_li u) rs hr, h]

theorem flush_html_writes (html : HTML) (ws : List Write)
    (hn : html.n_lines = html.html.length) (h : flush_html true html = .ok ws) :
    ws = .template (spec_head html.title)
      :: ((List.range html.html.length).flatMap (writes_at html.html)
          ++ [.template spec_tail]) := by
  have ht : html.title.length ≤ 31 := by
    by_contra hlong
    have hov := init_template_overflows html (fopen true) (by omega)
    simp [flush_html, hov, bind, Except.bind] at h
  rw [flush_html_result html hn ht] at h
  cases hr : body_result false html.html with
  | error f => simp [hr] at h
  | ok rs =>
    simp only [hr, Except.ok.injEq] at h
    have := range_writes_eq html.html []
    simp only [List.length_nil, List.nil_append, List.getLast?_nil] at this
    have hnone : (none : Option HTMLUnit).any is_li = false := rfl
    rw [hnone, ← List.range_eq_range'] at this
    rw [this, ← body_result_writes html.html false rs hr, ← h, spec_head_eq]
    rfl

/-- C4: for every source document whose recorded line count is the number of
its linked units, `html_from_md` returns a document whose `n_lines` and whose
number of units are that number, and whose unit `i` has the tag
`find_html_tag` gives the kind of source unit `i` and the content and uri of
source unit `i`. -/
theorem html_from_md_units (md : MD) (file_name title : Option CString)
    (hn : md.n_lines = md.elements.length) :
    ∃ html : HTML, html_from_md md file_name title = .ok html
      ∧ html.n_lines = md.elements.length
      ∧ html.html.length = md.elements.length
      ∧ ∀ i, i < md.elements.length →
          ∃ m u, md.elements[i]? = some m ∧ html.html[i]? = some u
            ∧ u.tag = find_html_tag m.type ∧ u.content = m.content ∧ u.uri = m.uri := by
  refine ⟨_, html_from_md_eq md file_name title hn, hn, by simp, ?_⟩
  intro i hi
  refine ⟨md.elements[i], html_unit_init md.elements[i], List.getElem?_eq_getElem hi, ?_, rfl,
    rfl, rfl⟩
  simp [List.getElem?_map, List.getElem?_eq_getElem hi]

/-- C4, witness: a heading and a plain line, line count 2. -/
theorem html_from_md_units_witness :
    ∃ html : HTML,
      html_from_md ⟨2, [⟨.UNIT_TYPE_H1, some "T".toList, none⟩,
          ⟨.UNIT_TYPE_NONE, some "x".toList, none⟩]⟩ none none = .ok html
      ∧ html.n_lines = 2
      ∧ html.html.length = 2
      ∧ ∀ i, i < 2 →
          ∃ m u, ([⟨.UNIT_TYPE_H1, some "T".toList, none⟩,
              ⟨.UNIT_TYPE_NONE, some "x".toList, none⟩] : List MDUnit)[i]? = some m
            ∧ html.html[i]? = some u
            ∧ u.tag = find_html_tag m.type ∧ u.content = m.content ∧ u.uri = m.uri :=
  html_from_md_units ⟨2, [⟨.UNIT_TYPE_H1, some "T".toList, none⟩,
      ⟨.UNIT_TYPE_NONE, some "x".toList, none⟩]⟩ none none rfl

/-- C5, as amended: `find_html_tag` is total and sends Heading1 to H1, Heading2
to H2, Heading3 to H3, BulletItem to LI, Image to IMG, the plain line
(`UNIT_TYPE_NONE`) to `HTML_TAG_NEWLINE`, and every other kind to NONE. -/
theorem find_html_tag_table :
    find_html_tag .UNIT_TYPE_H1 = .HTML_TAG_H1
      ∧ find_html_tag .UNIT_TYPE_H2 = .HTML_TAG_H2
      ∧ find_html_tag .UNIT_TYPE_H3 = .HTML_TAG_H3
      ∧ find_html_tag .UNIT_TYPE_BULLET = .HTML_TAG_LI
      ∧ find_html_tag .UNIT_TYPE_IMAGE = .HTML_TAG_IMG
      ∧ find_html_tag .UNIT_TYPE_NONE = .HTML_TAG_NEWLINE
      ∧ ∀ code : Nat, find_html_tag (.other code) = .HTML_TAG_NONE := by
  refine ⟨rfl, rfl, rfl, rfl, rfl, rfl, ?_⟩
  intro code
  rfl

/-- C5, counterexample: the tag `find_html_tag` returns for the plain line
(`UNIT_TYPE_NONE`) is not `HTML_TAG_NONE`. -/
theorem find_html_tag_plain_line_not_none :
    find_html_tag .UNIT_TYPE_NONE ≠ .HTML_TAG_NONE := by
  decide

/-- C8, as amended: for every uri `s` of at most 187 bytes, the pass of the
loop of `flush_html` over an image unit with empty (or absent) content and uri
`s` writes no start text and no end text, writes `<img src="s">`, and puts into
the file exactly a newline, one tab, `<img src="s">` and the line break. -/
theorem image_unit_chunk (html : HTML) (i : Nat) (content : Option CString) (s : CString)
    (out : List Write)
    (hu : html.html[i]? = some ⟨.HTML_TAG_IMG, content, some s⟩)
    (hc : content.getD [] = []) (hs : s.length ≤ 187) :
    ∃ ws : List Write,
      flush_unit html i (some out) = .ok (some (out ++ ws))
        ∧ bytes_of ws = "\n\t<img src=\"".toList ++ s ++ "\"><br>".toList
        ∧ Write.img ("<img src=\"".toList ++ s ++ "\">".toList) ∈ ws
        ∧ ∀ t : CString, Write.start_tag t ∉ ws ∧ Write.end_tag t ∉ ws := by
  refine ⟨_, flush_image_eq html i content s out hu hs, ?_, ?_, ?_⟩
  · cases content with
    | none => simp [bytes_of, Write.bytes, NEWLINE, TABSPACE, LINEBREAK]
    | some c =>
      have hc2 : c = [] := by simpa using hc
      subst hc2
      simp [bytes_of, Write.bytes, NEWLINE, TABSPACE, LINEBREAK]
  · simp
  · intro t
    cases content <;> simp

/-- C8, witness: the uri `pic.png`, with the empty string as content. -/
theorem image_unit_chunk_witness :
    ∃ ws : List Write,
      flush_unit ⟨DEFAULT_HTML_FILE_NAME, DEFAULT_HTML_TITLE, 1,
            [⟨.HTML_TAG_IMG, some [], some "pic.png".toList⟩]⟩ 0 (some [])
          = .ok (some ([] ++ ws))
        ∧ bytes_of ws = "\n\t<img src=\"".toList ++ "pic.png".toList ++ "\"><br>".toList
        ∧ Write.img ("<img src=\"".toList ++ "pic.png".toList ++ "\">".toList) ∈ ws
        ∧ ∀ t : CString, Write.start_tag t ∉ ws ∧ Write.end_tag t ∉ ws :=
  image_unit_chunk ⟨DEFAULT_HTML_FILE_NAME, DEFAULT_HTML_TITLE, 1,
      [⟨.HTML_TAG_IMG, some [], some "pic.png".toList⟩]⟩ 0 (some []) "pic.png".toList [] rfl rfl
    (by decide)

set_option maxRecDepth 8000 in
/-- C8, counterexample: for a uri of 188 bytes the text `<img src="...">` and
its NUL need 201 bytes of `char img[200]`; the pass over the image unit leaves
defined behaviour and writes no chunk. -/
theorem image_unit_long_uri :
    flush_unit ⟨DEFAULT_HTML_FILE_NAME, DEFAULT_HTML_TITLE, 1,
          [⟨.HTML_TAG_IMG, some [], some (List.replicate 188 'a')⟩]⟩ 0 (some [])
        = .error .buffer_overflow
      ∧ ¬ ∃ ws : List Write,
          flush_unit ⟨DEFAULT_HTML_FILE_NAME, DEFAULT_HTML_TITLE, 1,
            [⟨.HTML_TAG_IMG, some [], some (List.replicate 188 'a')⟩]⟩ 0 (some [])
          = .ok (some ([] ++ ws)) := by
  have h : flush_unit ⟨DEFAULT_HTML_FILE_NAME, DEFAULT_HTML_TITLE, 1,
      [⟨.HTML_TAG_IMG, some [], some (List.replicate 188 'a')⟩]⟩ 0 (some [])
      = .error .buffer_overflow := by
    rfl
  refine ⟨h, ?_⟩
  rw [h]
  simp

/-- C9, as amended: for a document with zero units whose title is at most 31
bytes long, `flush_html` makes two writes, the head template with the title in
it and the tail template, so the file holds the one followed at once by the
other. -/
theorem empty_document_output (html : HTML) (h0 : html.n_lines = 0)
    (ht : html.title.length ≤ 31) :
    flush_html true html = .ok [.template (spec_head html.title), .template spec_tail]
      ∧ (flush_html true html).map bytes_of = .ok (spec_head html.title ++ spec_tail) := by
  have hfit : (init_format_head ++ html.title ++ init_format_tail).length + 1 ≤ 200 := by
    have := init_format_length
    simp only [List.length_append]
    omega
  have h : flush_html true html
      = .ok [.template (spec_head html.title), .template spec_tail] := by
    simp only [flush_html, fopen, init_template, sprintf, hfit, if_true, bind, Except.bind,
      fwrite_some, List.nil_append, final_template, fclose, h0, flush_units]
    simp [spec_head_eq, head_text, spec_tail]
  refine ⟨h, ?_⟩
  rw [h]
  simp [Except.map, bytes_of, Write.bytes]

/-- C9, witness: the empty document with the default title. -/
theorem empty_document_output_witness :
    (0 : Nat) = 0 ∧ DEFAULT_HTML_TITLE.length ≤ 31
      ∧ flush_html true ⟨DEFAULT_HTML_FILE_NAME, DEFAULT_HTML_TITLE, 0, []⟩
          = .ok [.template (spec_head DEFAULT_HTML_TITLE), .template spec_tail]
      ∧ (flush_html true ⟨DEFAULT_HTML_FILE_NAME, DEFAULT_HTML_TITLE, 0, []⟩).map bytes_of
          = .ok (spec_head DEFAULT_HTML_TITLE ++ spec_tail) :=
  ⟨rfl, by decide,
    empty_document_output ⟨DEFAULT_HTML_FILE_NAME, DEFAULT_HTML_TITLE, 0, []⟩ rfl (by decide)⟩

set_option maxRecDepth 8000 in
/-- C9, counterexample: with zero units and a title of 32 bytes the formatted
head needs 201 bytes of `char template[200]`; `flush_html` leaves defined
behaviour and its output is not the head followed by the tail. -/
theorem empty_document_long_title :
    flush_html true ⟨DEFAULT_HTML_FILE_NAME, List.replicate 32 'a', 0, []⟩
        = .error .buffer_overflow
      ∧ (flush_html true ⟨DEFAULT_HTML_FILE_NAME, List.replicate 32 'a', 0, []⟩).map bytes_of
          ≠ .ok (spec_head (List.replicate 32 'a') ++ spec_tail) := by
  have h : flush_html true ⟨DEFAULT_HTML_FILE_NAME, List.replicate 32 'a', 0, []⟩
      = .error .buffer_overflow := by
    rfl
  refine ⟨h, ?_⟩
  rw [h]
  simp [Except.map]

/-- C10, as amended: for every image unit with content `c` (empty or not) and a
uri of at most 187 bytes, the pass of the loop of `flush_html` over it writes
`c` and, as the very next write, `<img src="uri">`: in the file the content is
followed at once by the img tag. -/
theorem image_content_then_img (html : HTML) (i : Nat) (c s : CString) (out : List Write)
    (hu : html.html[i]? = some ⟨.HTML_TAG_IMG, some c, some s⟩) (hs : s.length ≤ 187) :
    flush_unit html i (some out)
        = .ok (some (out ++ [.newline, .tabspace, .content c,
            .img ("<img src=\"".toList ++ s ++ "\">".toList), .linebreak]))
      ∧ bytes_of [.newline, .tabspace, .content c,
            .img ("<img src=\"".toList ++ s ++ "\">".toList), .linebreak]
          = "\n\t".toList ++ c ++ "<img src=\"".toList ++ s ++ "\"><br>".toList := by
  refine ⟨flush_image_eq html i (some c) s out hu hs, ?_⟩
  simp [bytes_of, Write.bytes, NEWLINE, TABSPACE, LINEBREAK]

/-- C10, witness: an image with content `logo` and uri `pic.png`. -/
theorem image_content_then_img_witness :
    flush_unit ⟨DEFAULT_HTML_FILE_NAME, DEFAULT_HTML_TITLE, 1,
          [⟨.HTML_TAG_IMG, some "logo".toList, some "pic.png".toList⟩]⟩ 0 (some [])
        = .ok (some ([] ++ [.newline, .tabspace, .content "logo".toList,
            .img ("<img src=\"".toList ++ "pic.png".toList ++ "\">".toList), .linebreak]))
      ∧ bytes_of [.newline, .tabspace, .content "logo".toList,
            .img ("<img src=\"".toList ++ "pic.png".toList ++ "\">".toList), .linebreak]
          = "\n\t".toList ++ "logo".toList ++ "<img src=\"".toList ++ "pic.png".toList
              ++ "\"><br>".toList :=
  image_content_then_img ⟨DEFAULT_HTML_FILE_NAME, DEFAULT_HTML_TITLE, 1,
      [⟨.HTML_TAG_IMG, some "logo".toList, some "pic.png".toList⟩]⟩ 0 "logo".toList
    "pic.png".toList [] rfl (by decide)

set_option maxRecDepth 8000 in
/-- C10, counterexample: an image with content `logo` and a uri of 188 bytes;
the pass leaves defined behaviour at the `sprintf` into `char img[200]` and
does not end with the content and the img tag written. -/
theorem image_content_long_uri :
    flush_unit ⟨DEFAULT_HTML_FILE_NAME, DEFAULT_HTML_TITLE, 1,
          [⟨.HTML_TAG_IMG, some "logo".toList, some (List.replicate 188 'b')⟩]⟩ 0 (some [])
        = .error .buffer_overflow
      ∧ ¬ ∃ ws : List Write,
          flush_unit ⟨DEFAULT_HTML_FILE_NAME, DEFAULT_HTML_TITLE, 1,
            [⟨.HTML_TAG_IMG, some "logo".toList, some (List.replicate 188 'b')⟩]⟩ 0 (some [])
          = .ok (some ws) := by
  have h : flush_unit ⟨DEFAULT_HTML_FILE_NAME, DEFAULT_HTML_TITLE, 1,
      [⟨.HTML_TAG_IMG, some "logo".toList, some (List.replicate 188 'b')⟩]⟩ 0 (some [])
      = .error .buffer_overflow := by
    rfl
  refine ⟨h, ?_⟩
  rw [h]
  simp

/-- C11: the document `html_from_md` returns has the file name `index.html`
when no file-name override is given and the override when one is given, and
the title `Document` when no title override is given and the override when one
is given; each of the two depends on its own override only. The conversion
returns a document whenever the recorded line count covers the units. -/
theorem html_from_md_names (md : MD) (file_name title : Option CString) :
    (∀ html : HTML, html_from_md md file_name title = .ok html →
        html.file_name = (match file_name with
          | some name => name
          | none => "index.html".toList)
        ∧ html.title = (match title with
          | some t => t
          | none => "Document".toList))
      ∧ (md.elements.length ≤ md.n_lines →
          ∃ html : HTML, html_from_md md file_name title = .ok html) := by
  refine ⟨?_, fun hn => ⟨_, html_from_md_le md file_name title hn⟩⟩
  intro html h
  have := html_from_md_fields md file_name title html h
  cases file_name <;> cases title <;>
    simpa [DEFAULT_HTML_FILE_NAME, DEFAULT_HTML_TITLE] using this

/-- C12, as amended: when `html_from_md` is given a file-name override or a
title override that is present but is the empty string, the document it
returns has the empty string in that field. -/
theorem html_from_md_empty_override (md : MD) (file_name title : Option CString) :
    (∀ html : HTML, html_from_md md file_name title = .ok html →
        (file_name = some [] → html.file_name = [])
        ∧ (title = some [] → html.title = []))
      ∧ (md.elements.length ≤ md.n_lines →
          ∃ html : HTML, html_from_md md file_name title = .ok html) := by
  refine ⟨?_, fun hn => ⟨_, html_from_md_le md file_name title hn⟩⟩
  intro html h
  have := html_from_md_fields md file_name title html h
  refine ⟨fun hf => ?_, fun ht => ?_⟩
  · rw [this.1, hf]
    rfl
  · rw [this.2, ht]
    rfl

/-- C12, counterexample: with both overrides present and empty, the document
has an empty file name and an empty title, not `index.html` and `Document`. -/
theorem html_from_md_empty_not_default :
    ∃ html : HTML, html_from_md ⟨0, []⟩ (some []) (some []) = .ok html
      ∧ html.file_name = [] ∧ html.title = []
      ∧ html.file_name ≠ "index.html".toList ∧ html.title ≠ "Document".toList :=
  ⟨_, rfl, rfl, rfl, by decide, by decide⟩

/-- C13: a source unit of a kind outside the six named ones is converted to a
unit tagged NONE, and serialization then reads `tags[unit->tag]` past the five
rows of the table: no output is defined, whatever the kind, content and uri. -/
theorem unknown_kind_faults (code : Nat) (content uri : Option CString) :
    ∃ html : HTML,
      html_from_md ⟨1, [⟨.other code, content, uri⟩]⟩ none none = .ok html
        ∧ html.html = [⟨.HTML_TAG_NONE, content, uri⟩]
        ∧ tags_at .HTML_TAG_NONE = .error .tags_out_of_bounds
        ∧ flush_html true html = .error .tags_out_of_bounds := by
  refine ⟨_, html_from_md_le _ none none (by simp), rfl, rfl, ?_⟩
  rw [flush_html_result _ rfl (show DEFAULT_HTML_TITLE.length ≤ 31 by decide)]
  simp [body_result, unit_fault, html_unit_init, find_html_tag, tags_at, newline_row, tags, HTMLTag.toNat]

/-- C14: when the destination cannot be opened, `flush_html` makes no test of
the handle: `init_template` prints through the NULL stream, which leaves
defined behaviour, so that no run of `flush_html` ends with a result; nothing
is reported to the caller. -/
theorem flush_html_null_stream (html : HTML) :
    (html.title.length ≤ 31 → flush_html false html = .error .null_stream)
      ∧ ¬ ∃ ws : List Write, flush_html false html = .ok ws := by
  refine ⟨?_, flush_html_closed html⟩
  intro ht
  have hopen : fopen false = none := rfl
  simp only [flush_html, hopen, init_template_null_fits html ht, bind, Except.bind]

/-- C15, as amended: for every document whose `n_lines` is the number of its
units, `html_free` releases the content string of every unit that has one, each
unit, the unit sequence and the document, each exactly once, and nothing else:
no block is released twice, and no uri string is released. -/
theorem html_free_releases (html : HTML) (hn : html.n_lines = html.html.length) :
    ∃ freed : List Block, html_free html = .ok freed
      ∧ freed.Nodup
      ∧ Block.units ∈ freed ∧ Block.document ∈ freed
      ∧ (∀ i u, html.html[i]? = some u →
          Block.unit i ∈ freed
            ∧ (Block.content i ∈ freed ↔ u.content.isSome = true))
      ∧ (∀ i, html.html.length ≤ i → Block.unit i ∉ freed ∧ Block.content i ∉ freed)
      ∧ (∀ i, Block.uri i ∉ freed) := by
  have hidx := unit_blocks_index html.html 0
  have hmem := unit_blocks_mem html.html 0
  simp only [Nat.zero_add] at hidx hmem
  refine ⟨_, html_free_eq html hn, ?_, by simp, by simp, ?_, ?_, ?_⟩
  · have hnd := unit_blocks_nodup html.html 0
    have h1 : Block.units ∉ unit_blocks 0 html.html := by
      intro hm
      obtain ⟨j, v, _, hv⟩ := hidx _ hm
      rcases hv with hv | ⟨hv, _⟩ <;> cases hv
    have h2 : Block.document ∉ unit_blocks 0 html.html := by
      intro hm
      obtain ⟨j, v, _, hv⟩ := hidx _ hm
      rcases hv with hv | ⟨hv, _⟩ <;> cases hv
    rw [List.nodup_append]
    refine ⟨hnd, by simp, ?_⟩
    intro b hb hb2
    simp only [List.mem_cons, List.mem_singleton, List.not_mem_nil, or_false] at hb2
    rcases hb2 with rfl | rfl
    · exact h1 hb
    · exact h2 hb
  · intro i u hu
    refine ⟨by simp [(hmem i u hu).1], ?_⟩
    constructor
    · intro hm
      simp only [List.mem_append, List.mem_cons, List.mem_singleton, List.not_mem_nil,
        or_false] at hm
      rcases hm with hm | hm | hm
      · obtain ⟨j, v, hj, hv⟩ := hidx _ hm
        rcases hv with hv | ⟨hv, hc⟩
        · cases hv
        · have hij : i = j := by simpa using hv
          subst hij
          rw [hu] at hj
          cases hj
          exact hc
      · cases hm
      · cases hm
    · intro hc
      simp [(hmem i u hu).2 hc]
  · intro i hi
    have hnone : ∀ b, (b = Block.unit i ∨ b = Block.content i) →
        b ∉ unit_blocks 0 html.html := by
      intro b hb hm
      obtain ⟨j, v, hj, hv⟩ := hidx _ hm
      have hlt : j < html.html.length := (List.getElem?_eq_some.mp hj).1
      rcases hb with rfl | rfl <;> rcases hv with hv | ⟨hv, _⟩ <;>
        simp at hv <;> omega
    constructor
    · simpa using hnone _ (Or.inl rfl)
    · simpa using hnone _ (Or.inr rfl)
  · intro i hm
    simp only [List.mem_append, List.mem_cons, List.mem_singleton, List.not_mem_nil,
      or_false] at hm
    rcases hm with hm | hm | hm
    · obtain ⟨j, v, _, hv⟩ := hidx _ hm
      rcases hv with hv | ⟨hv, _⟩ <;> cases hv
    · cases hm
    · cases hm

/-- C15, witness: a heading and an image with content and uri. -/
theorem html_free_releases_witness :
    ∃ freed : List Block,
      html_free ⟨DEFAULT_HTML_FILE_NAME, DEFAULT_HTML_TITLE, 2,
          [⟨.HTML_TAG_H1, some "Title".toList, none⟩,
           ⟨.HTML_TAG_IMG, some "logo".toList, some "pic.png".toList⟩]⟩ = .ok freed
      ∧ freed.Nodup
      ∧ Block.units ∈ freed ∧ Block.document ∈ freed
      ∧ (∀ i u, ([⟨.HTML_TAG_H1, some "Title".toList, none⟩,
            ⟨.HTML_TAG_IMG, some "logo".toList, some "pic.png".toList⟩] : List HTMLUnit)[i]?
            = some u →
          Block.unit i ∈ freed
            ∧ (Block.content i ∈ freed ↔ u.content.isSome = true))
      ∧ (∀ i, 2 ≤ i → Block.unit i ∉ freed ∧ Block.content i ∉ freed)
      ∧ (∀ i, Block.uri i ∉ freed) :=
  html_free_releases ⟨DEFAULT_HTML_FILE_NAME, DEFAULT_HTML_TITLE, 2,
      [⟨.HTML_TAG_H1, some "Title".toList, none⟩,
       ⟨.HTML_TAG_IMG, some "logo".toList, some "pic.png".toList⟩]⟩ rfl

/-- C15, counterexample: a document of one image with content `logo` and uri
`pic.png`. The document owns the uri string of slot 0, and `html_free` frees
the content, the unit, the unit sequence and the document, not the uri. -/
theorem html_free_keeps_uri :
    Block.uri 0 ∈ owned_blocks ⟨DEFAULT_HTML_FILE_NAME, DEFAULT_HTML_TITLE, 1,
        [⟨.HTML_TAG_IMG, some "logo".toList, some "pic.png".toList⟩]⟩
      ∧ html_free ⟨DEFAULT_HTML_FILE_NAME, DEFAULT_HTML_TITLE, 1,
          [⟨.HTML_TAG_IMG, some "logo".toList, some "pic.png".toList⟩]⟩
        = .ok [.content 0, .unit 0, .units, .document]
      ∧ Block.uri 0 ∉ [Block.content 0, Block.unit 0, Block.units, Block.document] :=
  ⟨by decide, rfl, by decide⟩

/-- C17: the fixed text of the head template has 168 bytes; the `sprintf` of
`init_template` into `char template[200]` fits, NUL included, if and only if
the title has at most 31 bytes; with such a title `init_template` prints the
formatted head, with a title of 32 bytes or more it overflows; the default
title `Document` fits. -/
theorem head_template_fits :
    init_format_head.length + init_format_tail.length = 168
      ∧ (∀ title : CString,
          (init_format_head ++ title ++ init_format_tail).length + 1 ≤ 200
            ↔ title.length ≤ 31)
      ∧ (∀ (html : HTML) (out : List Write), html.title.length ≤ 31 →
          init_template (some out) html
            = .ok (some (out ++ [.template (head_text html.title)])))
      ∧ (∀ (html : HTML) (file : HTMLFile), 32 ≤ html.title.length →
          init_template file html = .error .buffer_overflow)
      ∧ DEFAULT_HTML_TITLE.length ≤ 31 := by
  exact ⟨init_format_length, head_fits_iff, init_template_fits, init_template_overflows,
    by decide⟩

/-- C18: the lookup `tags[t]` finds the row keyed `t` for H1, H2, H3 and LI; for
IMG it finds the row keyed NONE, and for NONE it is past the end of the table. -/
theorem tags_lookup_misaligned :
    tags.length = 5
      ∧ tags_at .HTML_TAG_H1 = .ok ⟨.HTML_TAG_H1, some "<h1>".toList, some "</h1>".toList⟩
      ∧ tags_at .HTML_TAG_H2 = .ok ⟨.HTML_TAG_H2, some "<h2>".toList, some "</h2>".toList⟩
      ∧ tags_at .HTML_TAG_H3 = .ok ⟨.HTML_TAG_H3, some "<h3>".toList, some "</h3>".toList⟩
      ∧ tags_at .HTML_TAG_LI = .ok ⟨.HTML_TAG_LI, some "<li>".toList, some "</li>".toList⟩
      ∧ tags_at .HTML_TAG_IMG = .ok ⟨.HTML_TAG_NONE, none, none⟩
      ∧ HTMLTag.HTML_TAG_NONE ≠ HTMLTag.HTML_TAG_IMG
      ∧ HTMLTag.HTML_TAG_NONE.toNat = some 5
      ∧ tags_at .HTML_TAG_NONE = .error .tags_out_of_bounds :=
  ⟨rfl, rfl, rfl, rfl, rfl, rfl, by decide, rfl, rfl⟩

/-- C20: for all unit sequences `xs` and `ys` such that `xs` is empty, `ys` is
empty, the last unit of `xs` is not LI or the first unit of `ys` is not LI, the
body bytes `flush_html` writes for `xs ++ ys` are the body bytes for `xs`
followed by the body bytes for `ys` (and the loop faults on `xs ++ ys` exactly
when it faults on `xs` or, after `xs`, on `ys`); in particular a unit that is
not LI contributes the bytes it has as a sequence of its own, whatever units
stand before and after it. -/
theorem body_bytes_compose (xs ys : List HTMLUnit)
    (h : xs = [] ∨ ys = [] ∨ (xs.getLast?).any is_li = false
      ∨ (ys.head?).any is_li = false) :
    body_bytes (xs ++ ys)
        = (body_bytes xs).bind (fun a => (body_bytes ys).map (fun c => a ++ c))
      ∧ ∀ (pre post : List HTMLUnit) (u : HTMLUnit), is_li u = false →
          body_bytes (pre ++ u :: post)
            = (body_bytes pre).bind (fun a =>
                (body_bytes [u]).bind (fun c =>
                  (body_bytes post).map (fun d => a ++ c ++ d))) := by
  constructor
  · apply body_bytes_append
    rcases h with h | h | h | h
    · exact Or.inl (by simp [h])
    · exact Or.inr (by simp [h])
    · exact Or.inl h
    · exact Or.inr h
  · intro pre post u hu
    have h1 := body_bytes_append pre (u :: post) (Or.inr (by simpa using hu))
    have h2 := body_bytes_append [u] post (Or.inl (by simpa using hu))
    rw [h1]
    simp only [List.singleton_append] at h2
    rw [h2]
    cases body_bytes pre <;> cases body_bytes [u] <;> cases body_bytes post <;>
      simp [Except.bind, Except.map]

/-- C20, witness: a heading and a list item, followed by an image. -/
theorem body_bytes_compose_witness :
    body_bytes ([⟨.HTML_TAG_H1, some "Title".toList, none⟩,
        ⟨.HTML_TAG_LI, some "a".toList, none⟩]
        ++ [⟨.HTML_TAG_IMG, none, some "pic.png".toList⟩])
      = (body_bytes [⟨.HTML_TAG_H1, some "Title".toList, none⟩,
          ⟨.HTML_TAG_LI, some "a".toList, none⟩]).bind (fun a =>
            (body_bytes [⟨.HTML_TAG_IMG, none, some "pic.png".toList⟩]).map (fun c => a ++ c))
      ∧ body_bytes [⟨.HTML_TAG_H1, some "Title".toList, none⟩,
          ⟨.HTML_TAG_LI, some "a".toList, none⟩]
        = .ok "\n\t<h1>Title</h1>\n\t<ul>\n\t\t<li>a</li><br>\n\t</ul>\n".toList
      ∧ body_bytes [⟨.HTML_TAG_IMG, none, some "pic.png".toList⟩]
        = .ok "\n\t<img src=\"pic.png\"><br>".toList :=
  ⟨(body_bytes_compose [⟨.HTML_TAG_H1, some "Title".toList, none⟩,
      ⟨.HTML_TAG_LI, some "a".toList, none⟩]
      [⟨.HTML_TAG_IMG, none, some "pic.png".toList⟩] (Or.inr (Or.inr (Or.inr rfl)))).1,
    rfl, rfl⟩

end MdToHtml
